import Mathlib

/-!
# LitePCIe utility: DMA loopback test and flash programming

A shallow embedding of `software/user/litepcie_util.c`:

* the sequence generator and verifier `seed_to_data`, `write_pn_data`, `check_pn_data`;
* the body of the `dma_test` loop, driven by what the buffer exchange library answers;
* `flash_program` and `flash_read`, driven by what the flash library answers.

Machine integers are `Nat`/`Int` with the conversions of C written out (`u32`, `i32`).
`DMA_BUFFER_SIZE` and `DMA_BUFFER_COUNT` come from a driver header; they are the
parameters `B` and `C` of every definition that uses them.
-/

namespace LitePCIe

/-! ## Machine integers and memory -/

/-- Conversion to `uint32_t`: reduction modulo `2 ^ 32`. -/
def u32 (x : Nat) : Nat := x % 2 ^ 32

/-- Conversion of an integer to `uint32_t`. -/
def u32_of_int (x : Int) : Nat := (x % 2 ^ 32).toNat

/-- Conversion of an integer to `int` (two's complement, 32 bits): the residue modulo
`2 ^ 32`, less `2 ^ 32` when it is `2 ^ 31` or more. -/
def i32 (x : Int) : Int :=
  if u32_of_int x < 2 ^ 31 then (u32_of_int x : Int) else (u32_of_int x : Int) - 2 ^ 32

/-- Conversion of an integer to `size_t` (64 bits). -/
def size_t_of_int (x : Int) : Nat := (x % 2 ^ 64).toNat

/-- A buffer of 32-bit words seen through a `uint32_t *`: the word at each index. -/
abbrev Buf := Nat → Nat

/-- The assignment `buf[i] = v`. -/
def poke (buf : Buf) (i v : Nat) : Buf := fun k => if k = i then v else buf k

/-! ## Sequence generator and verifier -/

/-- Modelled from the spec: `add_mod_int` is declared in `helpers.h`, which is not among
the sources; the spec gives the seed step as `seed' = (seed + 1) mod (buffer_size_in_words)`,
so `add_mod_int a b m` is the modular addition `(a + b) mod m`. -/
def add_mod_int (a b m : Nat) : Nat := (a + b) % m

/-- The data word of a seed, `seed * 69069 + 1` in `uint32_t` arithmetic
(`DMA_RANDOM_DATA` is defined at the top of the file, so this is the branch compiled). -/
def seed_to_data (seed : Nat) : Nat := u32 (seed * 69069 + 1)

/-- The `for` loop of `write_pn_data`: the first argument is `count - i`, the number of
iterations left; `i` is the loop index. -/
def write_pn_loop (B : Nat) : Nat → Nat → Buf → Nat → Buf × Nat
  | 0, _, buf, seed => (buf, seed)
  | k + 1, i, buf, seed =>
      write_pn_loop B k (i + 1) (poke buf i (seed_to_data seed))
        (u32 (add_mod_int seed 1 (B / 4)))

/-- The function `write_pn_data(buf, count, pseed)`: returns the buffer as written and the
seed stored back through `pseed`. A negative `count` runs the loop zero times. -/
def write_pn_data (B : Nat) (buf : Buf) (count : Int) (seed : Nat) : Buf × Nat :=
  write_pn_loop B count.toNat 0 buf seed

/-- The `for` loop of `check_pn_data`: the first argument is `count - i`; `errors` is the
running mismatch count. -/
def check_pn_loop (B : Nat) : Nat → Nat → Buf → Nat → Nat → Nat × Nat
  | 0, _, _, errors, seed => (errors, seed)
  | k + 1, i, buf, errors, seed =>
      check_pn_loop B k (i + 1) buf
        (if buf i ≠ seed_to_data seed then errors + 1 else errors)
        (u32 (add_mod_int seed 1 (B / 4)))

/-- The function `check_pn_data(buf, count, pseed)`: returns the number of mismatches and
the seed stored back through `pseed`. The count of mismatches is at most `count`, so the
`int` counter never overflows. -/
def check_pn_data (B : Nat) (buf : Buf) (count : Int) (seed : Nat) : Nat × Nat :=
  check_pn_loop B count.toNat 0 buf 0 seed

/-- One seed step as both loops perform it. -/
def seed_step (B : Nat) (seed : Nat) : Nat := u32 (add_mod_int seed 1 (B / 4))

/-! ## The DMA test loop -/

/-- One line of the statistics table printed by `dma_test`. The rate is computed by the
code in `double`; the model keeps the exact rational value of the same expression. -/
structure DmaReport where
  header : Bool
  speed : ℚ
  tx_buffers : Int
  rx_buffers : Int
  diff : Int
  errors : Nat
deriving DecidableEq

/-- The local variables of `dma_test`, with three logs that the code does not keep:
the seeds before and after each `write_pn_data` and `check_pn_data` call, the buffers as
filled, and the statistics lines printed. -/
structure DmaTestState where
  i : Int
  reader_sw_count_last : Int
  last_time : Int
  errors : Nat
  seed_wr : Nat
  seed_rd : Nat
  n_buffers_written : Nat
  wr_seeds : List (Nat × Nat)
  wr_filled : List Buf
  rd_seeds : List (Nat × Nat)
  reports : List DmaReport

/-- What the collaborators answer during one pass through the loop body:
* `write_bufs`: the buffers that successive `litepcie_dma_next_write_buffer` calls would
  hand out before answering `NULL`;
* `read_bufs`: the buffers that successive `litepcie_dma_next_read_buffer` calls hand out
  before answering `NULL`, each with the value of `dma.writer_hw_count` read right after
  that buffer is verified;
* the two software counters read by the statistics block;
* the two `get_time_ms()` results of the statistics block. -/
structure DmaIterInput where
  write_bufs : List Buf
  read_bufs : List (Buf × Int)
  reader_sw_count : Int
  writer_sw_count : Int
  time_stat : Int
  time_report : Int

/-- The state at the first `get_time_ms()`, whose result is `t0`. -/
def dma_test_init (t0 : Int) : DmaTestState :=
  { i := 0, reader_sw_count_last := 0, last_time := t0, errors := 0,
    seed_wr := 0, seed_rd := 0, n_buffers_written := 0,
    wr_seeds := [], wr_filled := [], rd_seeds := [], reports := [] }

/-- The first inner loop of `dma_test`. The loop leaves when `n_buffers_written` equals
`DMA_BUFFER_COUNT` (tested first, so no buffer is asked for then) or when the library
answers `NULL` (the list of buffers is used up); otherwise the buffer is filled with
`DMA_BUFFER_SIZE / sizeof(uint32_t)` words and the counter incremented. -/
def fill_write_buffers (B C : Nat) : List Buf → DmaTestState → DmaTestState
  | [], st => st
  | buf_wr :: rest, st =>
      if st.n_buffers_written = C then st
      else
        let r := write_pn_data B buf_wr (i32 (B / 4 : Nat)) st.seed_wr
        fill_write_buffers B C rest
          { st with
            seed_wr := r.2
            n_buffers_written := u32 (st.n_buffers_written + 1)
            wr_seeds := st.wr_seeds ++ [(st.seed_wr, r.2)]
            wr_filled := st.wr_filled ++ [r.1] }

/-- The second inner loop of `dma_test`, with its local `check_errors`: every buffer handed
out is verified, its mismatch count added to `check_errors`, and `check_errors` added to
`errors` when `dma.writer_hw_count > DMA_BUFFER_COUNT`. -/
def drain_read_buffers (B C : Nat) : List (Buf × Int) → Nat → DmaTestState → DmaTestState
  | [], _, st => st
  | (buf_rd, writer_hw_count) :: rest, check_errors, st =>
      let r := check_pn_data B buf_rd (i32 (B / 4 : Nat)) st.seed_rd
      let check_errors1 := u32 (check_errors + r.1)
      drain_read_buffers B C rest check_errors1
        { st with
          seed_rd := r.2
          errors := if writer_hw_count > (C : Int) then u32 (st.errors + check_errors1)
                    else st.errors
          rd_seeds := st.rd_seeds ++ [(st.seed_rd, r.2)] }

/-- The rate printed in the first column:
`(reader_sw_count - reader_sw_count_last) * DMA_BUFFER_SIZE * 8 / (duration * 1e6)`. -/
def dma_speed (B : Nat) (reader_sw_count reader_sw_count_last duration : Int) : ℚ :=
  ((reader_sw_count - reader_sw_count_last : Int) : ℚ) * (B : ℚ) * 8 /
    ((duration : ℚ) * 1000000)

/-- The statistics block at the end of the loop body. -/
def dma_statistics (B : Nat) (inp : DmaIterInput) (st : DmaTestState) : DmaTestState :=
  let duration := inp.time_stat - st.last_time
  if duration > 200 then
    { st with
      i := st.i + 1
      reports := st.reports ++
        [{ header := decide (Int.tmod st.i 10 = 0)
           speed := dma_speed B inp.reader_sw_count st.reader_sw_count_last duration
           tx_buffers := inp.reader_sw_count
           rx_buffers := inp.writer_sw_count
           diff := inp.reader_sw_count - inp.writer_sw_count
           errors := st.errors }]
      errors := 0
      last_time := inp.time_report
      reader_sw_count_last := inp.reader_sw_count }
  else st

/-- One pass through the body of the test loop (after the `keep_running` test and
`litepcie_dma_process`). -/
def dma_test_iter (B C : Nat) (inp : DmaIterInput) (st : DmaTestState) : DmaTestState :=
  dma_statistics B inp
    (drain_read_buffers B C inp.read_bufs 0 (fill_write_buffers B C inp.write_bufs st))

/-- The test loop run for as many passes as there are inputs (the passes made before
`keep_running` is cleared). -/
def dma_test_run (B C : Nat) (t0 : Int) (inputs : List DmaIterInput) : DmaTestState :=
  inputs.foldl (fun st inp => dma_test_iter B C inp st) (dma_test_init t0)

/-- A pass of the test loop during the fill: no write buffer on offer, one read buffer
holding zeros only, read while `dma.writer_hw_count` is 256, and a statistics line due. -/
def transient_pass : DmaIterInput :=
  { write_bufs := [], read_bufs := [(fun _ => 0, 256)], reader_sw_count := 1,
    writer_sw_count := 1, time_stat := 300, time_report := 300 }

/-- A pass of the test loop that prints a statistics line: 1000 buffers counted by
`dma.reader_sw_count`, 1000 ms after the start of the test. -/
def report_pass : DmaIterInput :=
  { write_bufs := [], read_bufs := [], reader_sw_count := 1000, writer_sw_count := 1000,
    time_stat := 1000, time_report := 1000 }

/-- A buffer of 2048 words as `write_pn_data` fills it from seed 0 when
`DMA_BUFFER_SIZE = 8192`. -/
def pn_buffer : Buf := (write_pn_data 8192 (fun _ => 0) 2048 0).1

/-- A pass of the test loop in the steady state (`dma.writer_hw_count = 257`, above
`DMA_BUFFER_COUNT = 256`): two read buffers, the first with its word 0 cleared, the
second intact; no statistics line is due. -/
def steady_pass : DmaIterInput :=
  { write_bufs := [], read_bufs := [(poke pn_buffer 0 0, 257), (pn_buffer, 257)],
    reader_sw_count := 2, writer_sw_count := 2, time_stat := 0, time_report := 0 }

/-- A pass of the test loop in which the library has three write buffers on offer and no
read buffer. -/
def three_offered : DmaIterInput :=
  { write_bufs := [fun _ => 0, fun _ => 0, fun _ => 0], read_bufs := [],
    reader_sw_count := 0, writer_sw_count := 0, time_stat := 0, time_report := 0 }

/-! ## Flash programming -/

/-- The arguments of a `litepcie_flash_write(fd, buf, base, size, ...)` call. -/
structure FlashWriteCall where
  buf : List Nat
  base : Nat
  size : Nat
deriving DecidableEq

/-- What the environment answers to `flash_program`: the descriptor from `open`, the
erase block size (a `uint32_t`), whether `calloc` returned a buffer, and the error count
returned by `litepcie_flash_write`. -/
structure FlashProgramEnv where
  fd : Int
  erase_block_size : Nat
  calloc_ok : Bool
  write_errors : Int

/-- The observable behaviour of `flash_program`: the flash write calls made, and the
status passed to `exit`, if the function exits the process. -/
structure FlashProgramOutcome where
  calls : List FlashWriteCall
  exit_status : Option Nat
deriving DecidableEq

/-- The call `memcpy(dst, src, n)` on byte lists, for `n` at most both lengths. -/
def memcpy (dst src : List Nat) (n : Nat) : List Nat := src.take n ++ dst.drop n

/-- The padded size computed by `flash_program`: `int` arithmetic with truncating
division, stored in a `uint32_t`. -/
def padded_size (size1 sector_size : Int) : Nat :=
  u32_of_int (Int.tdiv (size1 + sector_size - 1) sector_size * sector_size)

/-- The function `flash_program(base, buf1, size1)`. -/
def flash_program (env : FlashProgramEnv) (base : Nat) (buf1 : List Nat) (size1 : Int) :
    FlashProgramOutcome :=
  if env.fd < 0 then { calls := [], exit_status := some 1 }
  else
    let sector_size := i32 (env.erase_block_size : Int)
    let size := padded_size size1 sector_size
    if !env.calloc_ok then { calls := [], exit_status := some 1 }
    else
      let buf := memcpy (List.replicate size 0) buf1 (size_t_of_int size1)
      { calls := [{ buf := buf, base := base, size := size }]
        exit_status := if env.write_errors ≠ 0 then some 1 else none }

/-- A run of `flash_program` as in the spec's example: the device opens, the erase block
size is 4096, `calloc` succeeds and the write reports no error. -/
def sector_4096_env : FlashProgramEnv :=
  { fd := 3, erase_block_size := 4096, calloc_ok := true, write_errors := 0 }

/-- A payload of 100 bytes, each `0xff`. -/
def payload_100 : List Nat := List.replicate 100 255

/-- What the environment answers to `flash_read`: whether `fopen` succeeded, the
descriptor from `open`, the erase block size (a `uint32_t`), and the flash device: a state
and the single-byte read `litepcie_flash_read(fd, addr)`, which returns a `uint8_t` and
may change the state. -/
structure FlashReadEnv (σ : Type) where
  fopen_ok : Bool
  fd : Int
  erase_block_size : Nat
  state : σ
  read : σ → Nat → Nat × σ

/-- What `flash_read` does: the `litepcie_flash_read` calls (address and byte returned),
the bytes written to the file, the addresses printed as progress, and the status passed
to `exit`, if the function exits the process. -/
structure FlashReadLog where
  reads : List (Nat × Nat)
  file : List Nat
  progress : List Nat
  exit_status : Option Nat
deriving DecidableEq

/-- The `for` loop of `flash_read`. The index `i` is an `int` used only next to
`uint32_t` operands (`i < size`, `i % sector_size`, `base + i`), so it is kept as its
`uint32_t` value. The first argument bounds the number of passes; `none` means the bound
was reached, or `i % sector_size` was evaluated with `sector_size = 0`. -/
def flash_read_loop {σ : Type} (read : σ → Nat → Nat × σ) (base sector_size size : Nat) :
    Nat → Nat → σ → FlashReadLog → Option FlashReadLog
  | 0, _, _, _ => none
  | fuel + 1, i, dev, log =>
      if i < size then
        if sector_size = 0 then none
        else
          let r := read dev (u32 (base + i))
          let byte := r.1 % 256
          flash_read_loop read base sector_size size fuel (u32 (i + 1)) r.2
            { log with
              reads := log.reads ++ [(u32 (base + i), byte)]
              file := log.file ++ [byte]
              progress := if i % sector_size = 0 then log.progress ++ [u32 (base + i)]
                          else log.progress }
      else some log

/-- The function `flash_read(filename, size, offset)`: `size + 1` evaluations of the loop
condition are enough for the loop to end. -/
def flash_read {σ : Type} (env : FlashReadEnv σ) (size offset : Nat) : Option FlashReadLog :=
  if !env.fopen_ok then some { reads := [], file := [], progress := [], exit_status := some 1 }
  else if env.fd < 0 then
    some { reads := [], file := [], progress := [], exit_status := some 1 }
  else
    flash_read_loop env.read offset env.erase_block_size size (size + 1) 0 env.state
      { reads := [], file := [], progress := [], exit_status := none }

/-- The bytes that successive `litepcie_flash_read` calls at the given addresses return,
starting from a given device state. -/
def flash_bytes {σ : Type} (read : σ → Nat → Nat × σ) : σ → List Nat → List Nat
  | _, [] => []
  | dev, addr :: rest => (read dev addr).1 % 256 :: flash_bytes read (read dev addr).2 rest

/-- A flash device whose byte at each address is the low byte of the address; the file
and the device open, and the erase block size is 4096. -/
def address_flash : FlashReadEnv Unit :=
  { fopen_ok := true, fd := 3, erase_block_size := 4096, state := (),
    read := fun dev addr => (addr % 256, dev) }

/-! ## The sequence generator and verifier: lemmas -/

theorem u32_of_lt {x : Nat} (h : x < 2 ^ 32) : u32 x = x := Nat.mod_eq_of_lt h

theorem i32_of_small {x : Int} (h0 : 0 ≤ x) (h1 : x < 2 ^ 31) : i32 x = x := by
  unfold i32 u32_of_int
  have h : x % 2 ^ 32 = x := Int.emod_eq_of_lt h0 (by omega)
  rw [h, if_pos (by omega)]
  omega

theorem write_pn_loop_seed (B : Nat) (k i : Nat) (buf : Buf) (s : Nat) :
    (write_pn_loop B k i buf s).2 = (seed_step B)^[k] s := by
  induction k generalizing i buf s with
  | zero => rfl
  | succ k ih => simp only [write_pn_loop, Function.iterate_succ_apply, ih]; rfl

theorem check_pn_loop_seed (B : Nat) (k i : Nat) (buf : Buf) (e s : Nat) :
    (check_pn_loop B k i buf e s).2 = (seed_step B)^[k] s := by
  induction k generalizing i e s with
  | zero => rfl
  | succ k ih => simp only [check_pn_loop, Function.iterate_succ_apply, ih]; rfl

theorem write_pn_loop_below (B : Nat) (k i : Nat) (buf : Buf) (s idx : Nat) (h : idx < i) :
    (write_pn_loop B k i buf s).1 idx = buf idx := by
  induction k generalizing i buf s with
  | zero => rfl
  | succ k ih =>
    simp only [write_pn_loop]
    rw [ih (i + 1) _ _ (by omega)]
    simp [poke, Nat.ne_of_lt h]

theorem check_pn_loop_congr (B : Nat) (k i : Nat) (buf buf2 : Buf) (e s : Nat)
    (h : ∀ idx, i ≤ idx → buf idx = buf2 idx) :
    check_pn_loop B k i buf e s = check_pn_loop B k i buf2 e s := by
  induction k generalizing i e s with
  | zero => rfl
  | succ k ih =>
    simp only [check_pn_loop]
    rw [h i (le_refl i)]
    exact ih (i + 1) _ _ (fun idx hidx => h idx (by omega))

theorem check_write_loop (B : Nat) (k i : Nat) (buf : Buf) (e s : Nat) :
    check_pn_loop B k i (write_pn_loop B k i buf s).1 e s
      = (e, (write_pn_loop B k i buf s).2) := by
  induction k generalizing i buf e s with
  | zero => rfl
  | succ k ih =>
    simp only [check_pn_loop, write_pn_loop]
    have hb := write_pn_loop_below B k (i + 1) (poke buf i (seed_to_data s))
      (u32 (add_mod_int s 1 (B / 4))) i (by omega)
    have hi : poke buf i (seed_to_data s) i = seed_to_data s := by simp [poke]
    simp only [hb, hi, ne_eq, not_true_eq_false, if_false]
    exact ih (i + 1) _ e _

theorem check_corrupt_loop (B : Nat) (k i : Nat) (buf : Buf) (e s j v : Nat)
    (hij : i ≤ j) (hjk : j < i + k) (hv : v ≠ (write_pn_loop B k i buf s).1 j) :
    check_pn_loop B k i (poke (write_pn_loop B k i buf s).1 j v) e s
      = (e + 1, (write_pn_loop B k i buf s).2) := by
  induction k generalizing i buf e s with
  | zero => omega
  | succ k ih =>
    simp only [write_pn_loop] at hv ⊢
    simp only [check_pn_loop]
    by_cases hji : j = i
    · subst hji
      rw [write_pn_loop_below B k (j + 1) _ _ j (by omega)] at hv
      have hne : poke (write_pn_loop B k (j + 1) (poke buf j (seed_to_data s))
          (u32 (add_mod_int s 1 (B / 4)))).1 j v j ≠ seed_to_data s := by
        simpa [poke] using hv
      rw [if_pos hne]
      rw [check_pn_loop_congr B k (j + 1) _
        (write_pn_loop B k (j + 1) (poke buf j (seed_to_data s))
          (u32 (add_mod_int s 1 (B / 4)))).1 _ _
        (fun idx hidx => by simp [poke]; omega)]
      exact check_write_loop B k (j + 1) _ (e + 1) _
    · have heq : poke (write_pn_loop B k (i + 1) (poke buf i (seed_to_data s))
          (u32 (add_mod_int s 1 (B / 4)))).1 j v i = seed_to_data s := by
        have : i ≠ j := fun h => hji h.symm
        simp only [poke, this, if_false]
        rw [write_pn_loop_below B k (i + 1) _ _ i (by omega)]
        simp [poke]
      rw [heq]
      simp only [ne_eq, not_true_eq_false, if_false]
      exact ih (i + 1) _ e _ (by omega) (by omega) hv

theorem seed_step_iterate (B : Nat) (hW : B / 4 ≤ 2 ^ 32) (n s : Nat) (hs : s < B / 4) :
    (seed_step B)^[n] s = (s + n) % (B / 4) := by
  induction n generalizing s with
  | zero => simp [Nat.mod_eq_of_lt hs]
  | succ n ih =>
    have hpos : 0 < B / 4 := by omega
    have hlt : (s + 1) % (B / 4) < B / 4 := Nat.mod_lt _ hpos
    have hstep : seed_step B s = (s + 1) % (B / 4) := by
      unfold seed_step add_mod_int
      exact u32_of_lt (by omega)
    rw [Function.iterate_succ_apply, hstep, ih _ hlt]
    rw [Nat.mod_add_mod]
    congr 1
    omega

theorem write_pn_loop_word (B : Nat) (k i : Nat) (buf : Buf) (s idx : Nat)
    (h1 : i ≤ idx) (h2 : idx < i + k) :
    (write_pn_loop B k i buf s).1 idx = seed_to_data ((seed_step B)^[idx - i] s) := by
  induction k generalizing i buf s with
  | zero => omega
  | succ k ih =>
    simp only [write_pn_loop]
    by_cases hidx : idx = i
    · subst hidx
      rw [write_pn_loop_below B k (idx + 1) _ _ idx (by omega)]
      simp [poke]
    · rw [ih (i + 1) _ _ (by omega) (by omega)]
      have hsub : idx - i = (idx - (i + 1)) + 1 := by omega
      rw [hsub, Function.iterate_succ_apply]
      rfl

/-! ## The sequence generator and verifier: claims -/

/-- C1: for every starting seed and every count, `check_pn_data` run from that seed over
the words that `write_pn_data` produced from the same seed finds 0 errors and leaves the
seed that `write_pn_data` left; the data word of a seed is `seed * 69069 + 1` reduced
modulo `2 ^ 32`. -/
theorem check_pn_data_write_pn_data (B : Nat) (buf : Buf) (count : Int) (seed : Nat) :
    check_pn_data B (write_pn_data B buf count seed).1 count seed
        = (0, (write_pn_data B buf count seed).2)
      ∧ seed_to_data seed = (seed * 69069 + 1) % 2 ^ 32 :=
  ⟨check_write_loop B count.toNat 0 buf 0 seed, rfl⟩

/-- C2: when one word `j < n` of a generated buffer is replaced by a different value,
`check_pn_data` counts exactly 1 error and leaves the same seed as for the untouched
buffer; the seed that `check_pn_data` leaves is the same for every buffer content. -/
theorem check_pn_data_one_corruption (B : Nat) (buf : Buf) (n seed j v : Nat) (hj : j < n)
    (hv : v ≠ (write_pn_data B buf (n : Int) seed).1 j) :
    check_pn_data B (poke (write_pn_data B buf (n : Int) seed).1 j v) (n : Int) seed
        = (1, (check_pn_data B (write_pn_data B buf (n : Int) seed).1 (n : Int) seed).2)
      ∧ ∀ other : Buf, (check_pn_data B other (n : Int) seed).2
          = (check_pn_data B (write_pn_data B buf (n : Int) seed).1 (n : Int) seed).2 := by
  constructor
  · have h := check_corrupt_loop B n 0 buf 0 seed j v (Nat.zero_le j) (by omega)
      (by simpa [write_pn_data] using hv)
    have h2 := check_write_loop B n 0 buf 0 seed
    simp only [check_pn_data, write_pn_data, Int.toNat_ofNat] at h h2 ⊢
    rw [h, h2]
  · intro other
    simp only [check_pn_data, check_pn_loop_seed]

/-- Witness of C2: four words generated from seed 0 with `DMA_BUFFER_SIZE = 8192`, word 2
replaced by 0. -/
theorem check_pn_data_one_corruption_witness :
    2 < 4 ∧ (0 : Nat) ≠ (write_pn_data 8192 (fun _ => 0) ((4 : Nat) : Int) 0).1 2
      ∧ (check_pn_data 8192 (poke (write_pn_data 8192 (fun _ => 0) ((4 : Nat) : Int) 0).1 2 0)
            ((4 : Nat) : Int) 0
          = (1, (check_pn_data 8192 (write_pn_data 8192 (fun _ => 0) ((4 : Nat) : Int) 0).1
              ((4 : Nat) : Int) 0).2)
        ∧ ∀ other : Buf, (check_pn_data 8192 other ((4 : Nat) : Int) 0).2
            = (check_pn_data 8192 (write_pn_data 8192 (fun _ => 0) ((4 : Nat) : Int) 0).1
                ((4 : Nat) : Int) 0).2) :=
  ⟨by decide, by decide,
    check_pn_data_one_corruption 8192 (fun _ => 0) 4 0 2 0 (by decide) (by decide)⟩

/-- C3: with `W = DMA_BUFFER_SIZE / 4` (a value that fits the 32-bit seed), for every
starting seed `s < W` and every count `n`, the seed left by `write_pn_data` and by
`check_pn_data` after `n` words, which is `n` applications of the seed step to `s`, is
`(s + n) mod W`. -/
theorem seed_after_n_words (B : Nat) (hW : B / 4 ≤ 2 ^ 32) (buf : Buf) (n s : Nat)
    (hs : s < B / 4) :
    (write_pn_data B buf (n : Int) s).2 = (s + n) % (B / 4)
      ∧ (check_pn_data B buf (n : Int) s).2 = (s + n) % (B / 4)
      ∧ (seed_step B)^[n] s = (s + n) % (B / 4) := by
  refine ⟨?_, ?_, seed_step_iterate B hW n s hs⟩
  · simp only [write_pn_data, Int.toNat_ofNat, write_pn_loop_seed]
    exact seed_step_iterate B hW n s hs
  · simp only [check_pn_data, Int.toNat_ofNat, check_pn_loop_seed]
    exact seed_step_iterate B hW n s hs

/-- Witness of C3: `DMA_BUFFER_SIZE = 8192`, seed 2047, 5000 words. -/
theorem seed_after_n_words_witness :
    8192 / 4 ≤ 2 ^ 32 ∧ 2047 < 8192 / 4
      ∧ ((write_pn_data 8192 (fun _ => 0) ((5000 : Nat) : Int) 2047).2
          = (2047 + 5000) % (8192 / 4)
        ∧ (check_pn_data 8192 (fun _ => 0) ((5000 : Nat) : Int) 2047).2
          = (2047 + 5000) % (8192 / 4)
        ∧ (seed_step 8192)^[5000] 2047 = (2047 + 5000) % (8192 / 4)) :=
  ⟨by decide, by decide,
    seed_after_n_words 8192 (by decide) (fun _ => 0) 5000 2047 (by decide)⟩

/-! ## The DMA test loop: lemmas -/

theorem fill_write_buffers_frame (B C : Nat) (bufs : List Buf) (st : DmaTestState) :
    (fill_write_buffers B C bufs st).errors = st.errors
      ∧ (fill_write_buffers B C bufs st).i = st.i
      ∧ (fill_write_buffers B C bufs st).reader_sw_count_last = st.reader_sw_count_last
      ∧ (fill_write_buffers B C bufs st).last_time = st.last_time
      ∧ (fill_write_buffers B C bufs st).seed_rd = st.seed_rd
      ∧ (fill_write_buffers B C bufs st).rd_seeds = st.rd_seeds
      ∧ (fill_write_buffers B C bufs st).reports = st.reports := by
  induction bufs generalizing st with
  | nil => simp [fill_write_buffers]
  | cons b rest ih =>
    simp only [fill_write_buffers]
    split
    · simp
    · exact ih _

theorem drain_read_buffers_frame (B C : Nat) (bufs : List (Buf × Int)) (ce : Nat)
    (st : DmaTestState) :
    (drain_read_buffers B C bufs ce st).i = st.i
      ∧ (drain_read_buffers B C bufs ce st).reader_sw_count_last = st.reader_sw_count_last
      ∧ (drain_read_buffers B C bufs ce st).last_time = st.last_time
      ∧ (drain_read_buffers B C bufs ce st).seed_wr = st.seed_wr
      ∧ (drain_read_buffers B C bufs ce st).n_buffers_written = st.n_buffers_written
      ∧ (drain_read_buffers B C bufs ce st).wr_seeds = st.wr_seeds
      ∧ (drain_read_buffers B C bufs ce st).wr_filled = st.wr_filled
      ∧ (drain_read_buffers B C bufs ce st).reports = st.reports := by
  induction bufs generalizing ce st with
  | nil => simp [drain_read_buffers]
  | cons p rest ih =>
    obtain ⟨b, hw⟩ := p
    simp only [drain_read_buffers]
    exact ih _ _

theorem dma_statistics_frame (B : Nat) (inp : DmaIterInput) (st : DmaTestState) :
    (dma_statistics B inp st).seed_wr = st.seed_wr
      ∧ (dma_statistics B inp st).seed_rd = st.seed_rd
      ∧ (dma_statistics B inp st).n_buffers_written = st.n_buffers_written
      ∧ (dma_statistics B inp st).wr_seeds = st.wr_seeds
      ∧ (dma_statistics B inp st).wr_filled = st.wr_filled
      ∧ (dma_statistics B inp st).rd_seeds = st.rd_seeds := by
  unfold dma_statistics
  simp only
  split <;> simp

theorem dma_statistics_errors_le (B : Nat) (inp : DmaIterInput) (st : DmaTestState) :
    (dma_statistics B inp st).errors ≤ st.errors := by
  unfold dma_statistics
  simp only
  split <;> simp

theorem dma_test_run_invariant (P : DmaTestState → Prop) (B C : Nat) (t0 : Int)
    (h0 : P (dma_test_init t0))
    (hstep : ∀ inp st, P st → P (dma_test_iter B C inp st)) (inputs : List DmaIterInput) :
    P (dma_test_run B C t0 inputs) := by
  unfold dma_test_run
  generalize dma_test_init t0 = st at h0
  induction inputs generalizing st with
  | nil => exact h0
  | cons inp rest ih => exact ih _ (hstep inp st h0)

theorem drain_suppressed (B C : Nat) (bufs bufs2 : List (Buf × Int)) (ce ce2 : Nat)
    (st : DmaTestState) (hwin : ∀ p ∈ bufs, p.2 ≤ (C : Int))
    (hsame : bufs2.map Prod.snd = bufs.map Prod.snd) :
    drain_read_buffers B C bufs2 ce2 st = drain_read_buffers B C bufs ce st
      ∧ (drain_read_buffers B C bufs ce st).errors = st.errors := by
  induction bufs generalizing bufs2 ce ce2 st with
  | nil =>
    cases bufs2 with
    | nil => simp [drain_read_buffers]
    | cons q rest2 => simp at hsame
  | cons p rest ih =>
    obtain ⟨b, hw⟩ := p
    cases bufs2 with
    | nil => simp at hsame
    | cons q rest2 =>
      obtain ⟨b2, hw2⟩ := q
      simp only [List.map_cons, List.cons.injEq] at hsame
      obtain ⟨hhw, hrest⟩ := hsame
      subst hhw
      have hle : ¬ hw2 > (C : Int) := not_lt.mpr (hwin (b, hw2) (List.mem_cons_self _ _))
      have hseed : (check_pn_data B b2 (i32 (B / 4 : Nat)) st.seed_rd).2
          = (check_pn_data B b (i32 (B / 4 : Nat)) st.seed_rd).2 := by
        simp only [check_pn_data, check_pn_loop_seed]
      simp only [drain_read_buffers, hle, if_false, hseed]
      have h := ih rest2 (u32 (ce + (check_pn_data B b (i32 (B / 4 : Nat)) st.seed_rd).1))
        (u32 (ce2 + (check_pn_data B b2 (i32 (B / 4 : Nat)) st.seed_rd).1))
        { st with
          seed_rd := (check_pn_data B b (i32 (B / 4 : Nat)) st.seed_rd).2
          errors := st.errors
          rd_seeds := st.rd_seeds ++
            [(st.seed_rd, (check_pn_data B b (i32 (B / 4 : Nat)) st.seed_rd).2)] }
        (fun p hp => hwin p (List.mem_cons_of_mem _ hp)) hrest
      exact h

theorem i32_words (B : Nat) (hB : B / 4 < 2 ^ 31) :
    (i32 ((B / 4 : Nat) : Int)).toNat = B / 4 := by
  rw [i32_of_small (Int.natCast_nonneg _) (by exact_mod_cast hB)]
  exact Int.toNat_ofNat _

theorem seed_step_period (B : Nat) (hB : B / 4 < 2 ^ 31) (s : Nat) (hs : s < B / 4) :
    (seed_step B)^[B / 4] s = s := by
  rw [seed_step_iterate B (by omega) _ s hs, Nat.add_mod_right, Nat.mod_eq_of_lt hs]

theorem seed_step_period_zero (B : Nat) (hB : B / 4 < 2 ^ 31) :
    (seed_step B)^[B / 4] 0 = 0 := by
  rcases Nat.eq_zero_or_pos (B / 4) with h | h
  · rw [h]; rfl
  · exact seed_step_period B hB 0 h

theorem write_pn_data_toNat (B : Nat) (buf : Buf) (s : Nat) (c : Int) (k : Nat)
    (h : c.toNat = k) : write_pn_data B buf c s = write_pn_loop B k 0 buf s := by
  subst h; rfl

theorem check_pn_data_toNat (B : Nat) (buf : Buf) (s : Nat) (c : Int) (k : Nat)
    (h : c.toNat = k) : check_pn_data B buf c s = check_pn_loop B k 0 buf 0 s := by
  subst h; rfl

theorem write_pn_data_full (B : Nat) (hB : B / 4 < 2 ^ 31) (buf : Buf) (s : Nat) :
    write_pn_data B buf (i32 ((B / 4 : Nat) : Int)) s = write_pn_loop B (B / 4) 0 buf s :=
  write_pn_data_toNat B buf s _ _ (i32_words B hB)

theorem check_pn_data_full (B : Nat) (hB : B / 4 < 2 ^ 31) (buf : Buf) (s : Nat) :
    check_pn_data B buf (i32 ((B / 4 : Nat) : Int)) s = check_pn_loop B (B / 4) 0 buf 0 s :=
  check_pn_data_toNat B buf s _ _ (i32_words B hB)

theorem full_buffer_words (B : Nat) (hB : B / 4 < 2 ^ 31) (buf : Buf) (idx : Nat)
    (hidx : idx < B / 4) :
    (write_pn_data B buf (i32 ((B / 4 : Nat) : Int)) 0).1 idx = seed_to_data idx := by
  rw [write_pn_data_full B hB, write_pn_loop_word B _ 0 buf 0 idx (Nat.zero_le _) (by omega)]
  rw [Nat.sub_zero, seed_step_iterate B (by omega) idx 0 (by omega), Nat.zero_add,
    Nat.mod_eq_of_lt hidx]

theorem fill_write_buffers_seeds (B C : Nat) (hB : B / 4 < 2 ^ 31) (bufs : List Buf)
    (st : DmaTestState) (h1 : st.seed_wr = 0) (h2 : ∀ p ∈ st.wr_seeds, p = (0, 0))
    (h3 : ∀ b ∈ st.wr_filled, ∀ idx, idx < B / 4 → b idx = seed_to_data idx) :
    (fill_write_buffers B C bufs st).seed_wr = 0
      ∧ (∀ p ∈ (fill_write_buffers B C bufs st).wr_seeds, p = (0, 0))
      ∧ ∀ b ∈ (fill_write_buffers B C bufs st).wr_filled,
          ∀ idx, idx < B / 4 → b idx = seed_to_data idx := by
  induction bufs generalizing st with
  | nil => exact ⟨h1, h2, h3⟩
  | cons b rest ih =>
    simp only [fill_write_buffers]
    split
    · exact ⟨h1, h2, h3⟩
    · have hseed : (write_pn_data B b (i32 ((B / 4 : Nat) : Int)) st.seed_wr).2 = 0 := by
        rw [h1, write_pn_data_full B hB, write_pn_loop_seed]
        exact seed_step_period_zero B hB
      apply ih
      · dsimp only
        exact hseed
      · intro p hp
        simp only [List.mem_append, List.mem_singleton] at hp
        rcases hp with hp | hp
        · exact h2 p hp
        · rw [hp, hseed, h1]
      · intro b2 hb2
        simp only [List.mem_append, List.mem_singleton] at hb2
        rcases hb2 with hb2 | hb2
        · exact h3 b2 hb2
        · intro idx hidx
          rw [hb2, h1]
          exact full_buffer_words B hB b idx hidx

theorem drain_read_buffers_seeds (B C : Nat) (hB : B / 4 < 2 ^ 31)
    (bufs : List (Buf × Int)) (ce : Nat) (st : DmaTestState) (h1 : st.seed_rd = 0)
    (h2 : ∀ p ∈ st.rd_seeds, p = (0, 0)) :
    (drain_read_buffers B C bufs ce st).seed_rd = 0
      ∧ ∀ p ∈ (drain_read_buffers B C bufs ce st).rd_seeds, p = (0, 0) := by
  induction bufs generalizing ce st with
  | nil => exact ⟨h1, h2⟩
  | cons q rest ih =>
    obtain ⟨b, hw⟩ := q
    simp only [drain_read_buffers]
    have hseed : (check_pn_data B b (i32 ((B / 4 : Nat) : Int)) st.seed_rd).2 = 0 := by
      rw [h1, check_pn_data_full B hB, check_pn_loop_seed]
      exact seed_step_period_zero B hB
    apply ih
    · dsimp only
      exact hseed
    · intro p hp
      simp only [List.mem_append, List.mem_singleton] at hp
      rcases hp with hp | hp
      · exact h2 p hp
      · rw [hp, hseed, h1]

theorem fill_write_buffers_bound (B C : Nat) (hC : C < 2 ^ 32) (bufs : List Buf)
    (st : DmaTestState) (h1 : st.n_buffers_written ≤ C)
    (h2 : st.wr_filled.length = st.n_buffers_written)
    (h3 : st.wr_seeds.length = st.n_buffers_written) :
    (fill_write_buffers B C bufs st).n_buffers_written ≤ C
      ∧ (fill_write_buffers B C bufs st).wr_filled.length
          = (fill_write_buffers B C bufs st).n_buffers_written
      ∧ (fill_write_buffers B C bufs st).wr_seeds.length
          = (fill_write_buffers B C bufs st).n_buffers_written
      ∧ st.n_buffers_written ≤ (fill_write_buffers B C bufs st).n_buffers_written := by
  induction bufs generalizing st with
  | nil => exact ⟨h1, h2, h3, le_refl _⟩
  | cons b rest ih =>
    simp only [fill_write_buffers]
    split
    · exact ⟨h1, h2, h3, le_refl _⟩
    · rename_i hne
      have hu : u32 (st.n_buffers_written + 1) = st.n_buffers_written + 1 :=
        u32_of_lt (by omega)
      rw [hu]
      have h := ih
        { st with
          seed_wr := (write_pn_data B b (i32 ((B / 4 : Nat) : Int)) st.seed_wr).2
          n_buffers_written := st.n_buffers_written + 1
          wr_seeds := st.wr_seeds ++
            [(st.seed_wr, (write_pn_data B b (i32 ((B / 4 : Nat) : Int)) st.seed_wr).2)]
          wr_filled := st.wr_filled ++
            [(write_pn_data B b (i32 ((B / 4 : Nat) : Int)) st.seed_wr).1] }
        (by dsimp only; omega) (by simp [h2]) (by simp [h3])
      refine ⟨h.1, h.2.1, h.2.2.1, ?_⟩
      have h4 := h.2.2.2
      dsimp only at h4
      omega

theorem fill_write_buffers_at_cap (B C : Nat) (bufs : List Buf) (st : DmaTestState)
    (h : st.n_buffers_written = C) : fill_write_buffers B C bufs st = st := by
  cases bufs with
  | nil => rfl
  | cons b rest => simp [fill_write_buffers, h]

theorem dma_test_run_baseline (B C : Nat) (t0 : Int) (inputs : List DmaIterInput) :
    (dma_test_run B C t0 inputs).reader_sw_count_last
      = (((dma_test_run B C t0 inputs).reports.getLast?).map DmaReport.tx_buffers).getD 0 := by
  refine dma_test_run_invariant
    (fun st => st.reader_sw_count_last
      = ((st.reports.getLast?).map DmaReport.tx_buffers).getD 0) B C t0 rfl ?_ inputs
  intro inp st hst
  obtain ⟨_, _, hl, _, _, _, hr⟩ := fill_write_buffers_frame B C inp.write_bufs st
  obtain ⟨_, hl2, _, _, _, _, _, hr2⟩ := drain_read_buffers_frame B C inp.read_bufs 0
    (fill_write_buffers B C inp.write_bufs st)
  unfold dma_test_iter dma_statistics
  simp only
  split
  · simp
  · rw [hl2, hl, hr2, hr]
    exact hst

/-! ## The DMA test loop: claims -/

/-- C6: in a pass of the test loop in which every reading of `dma.writer_hw_count` is at
most `DMA_BUFFER_COUNT`, the drain of the read buffers leaves `errors` as it was, and the
pass as a whole does not increase it, whatever the read buffers contain; the state after
the pass, and after any later passes, is the same for every content of the read buffers
of that pass, so the mismatches found there never reach a reported total. -/
theorem dma_test_fill_transient (B C : Nat) (inp : DmaIterInput) (st : DmaTestState)
    (hwin : ∀ p ∈ inp.read_bufs, p.2 ≤ (C : Int)) :
    (drain_read_buffers B C inp.read_bufs 0
        (fill_write_buffers B C inp.write_bufs st)).errors = st.errors
      ∧ (dma_test_iter B C inp st).errors ≤ st.errors
      ∧ ∀ bufs2 : List (Buf × Int), bufs2.map Prod.snd = inp.read_bufs.map Prod.snd →
          ∀ later : List DmaIterInput,
            List.foldl (fun s x => dma_test_iter B C x s)
                (dma_test_iter B C { inp with read_bufs := bufs2 } st) later
              = List.foldl (fun s x => dma_test_iter B C x s) (dma_test_iter B C inp st)
                  later := by
  have hfill := (fill_write_buffers_frame B C inp.write_bufs st).1
  have hdrain := (drain_suppressed B C inp.read_bufs inp.read_bufs 0 0
    (fill_write_buffers B C inp.write_bufs st) hwin rfl).2
  refine ⟨hdrain.trans hfill, ?_, ?_⟩
  · unfold dma_test_iter
    exact le_trans (dma_statistics_errors_le B inp _) (le_of_eq (hdrain.trans hfill))
  · intro bufs2 hsame later
    have h := (drain_suppressed B C inp.read_bufs bufs2 0 0
      (fill_write_buffers B C inp.write_bufs st) hwin hsame).1
    have hiter : dma_test_iter B C { inp with read_bufs := bufs2 } st
        = dma_test_iter B C inp st := by
      unfold dma_test_iter
      dsimp only
      rw [h]
      rfl
    rw [hiter]

/-- Witness of C6: the first pass with `DMA_BUFFER_COUNT = 256`, one read buffer of zeros
(every word a mismatch) and `writer_hw_count = 256`. -/
theorem dma_test_fill_transient_witness :
    (∀ p ∈ transient_pass.read_bufs, p.2 ≤ ((256 : Nat) : Int))
      ∧ ((drain_read_buffers 8192 256 transient_pass.read_bufs 0
            (fill_write_buffers 8192 256 transient_pass.write_bufs (dma_test_init 0))).errors
            = (dma_test_init 0).errors
        ∧ (dma_test_iter 8192 256 transient_pass (dma_test_init 0)).errors
            ≤ (dma_test_init 0).errors
        ∧ ∀ bufs2 : List (Buf × Int),
            bufs2.map Prod.snd = transient_pass.read_bufs.map Prod.snd →
            ∀ later : List DmaIterInput,
              List.foldl (fun s x => dma_test_iter 8192 256 x s)
                  (dma_test_iter 8192 256 { transient_pass with read_bufs := bufs2 }
                    (dma_test_init 0)) later
                = List.foldl (fun s x => dma_test_iter 8192 256 x s)
                    (dma_test_iter 8192 256 transient_pass (dma_test_init 0)) later) :=
  have hw : ∀ p ∈ transient_pass.read_bufs, p.2 ≤ ((256 : Nat) : Int) := by
    intro p hp
    simp only [transient_pass, List.mem_singleton] at hp
    subst hp
    decide
  ⟨hw, dma_test_fill_transient 8192 256 transient_pass (dma_test_init 0) hw⟩

/-- C7: when a pass of the test loop finds more than 200 ms elapsed, it prints one more
statistics line, whose rate is `delta_buffers * buffer_bits / elapsed_seconds` in Gbps
(divided by `10 ^ 9`), in exact rational arithmetic, where `delta_buffers` is
`dma.reader_sw_count` now minus its value in the previous line (0 before the first line),
`buffer_bits = DMA_BUFFER_SIZE * 8` and `elapsed_seconds = duration / 1000`. -/
theorem dma_test_throughput (B C : Nat) (t0 : Int) (inputs : List DmaIterInput)
    (inp : DmaIterInput)
    (hd : inp.time_stat - (dma_test_run B C t0 inputs).last_time > 200) :
    (dma_test_run B C t0 (inputs ++ [inp])).reports.length
        = (dma_test_run B C t0 inputs).reports.length + 1
      ∧ ((dma_test_run B C t0 (inputs ++ [inp])).reports.getLast?).map DmaReport.speed
        = some
            (((inp.reader_sw_count
                  - (((dma_test_run B C t0 inputs).reports.getLast?).map
                      DmaReport.tx_buffers).getD 0 : Int) : ℚ)
                * ((B : ℚ) * 8)
              / (((inp.time_stat - (dma_test_run B C t0 inputs).last_time : Int) : ℚ) / 1000)
              / 1000000000) := by
  have hbase := dma_test_run_baseline B C t0 inputs
  have hrun : dma_test_run B C t0 (inputs ++ [inp])
      = dma_test_iter B C inp (dma_test_run B C t0 inputs) := by
    simp [dma_test_run, List.foldl_append]
  obtain ⟨_, _, hl, ht, _, _, hr⟩ :=
    fill_write_buffers_frame B C inp.write_bufs (dma_test_run B C t0 inputs)
  obtain ⟨_, hl2, ht2, _, _, _, _, hr2⟩ := drain_read_buffers_frame B C inp.read_bufs 0
    (fill_write_buffers B C inp.write_bufs (dma_test_run B C t0 inputs))
  have hd2 : inp.time_stat - (drain_read_buffers B C inp.read_bufs 0
      (fill_write_buffers B C inp.write_bufs (dma_test_run B C t0 inputs))).last_time
      > 200 := by
    rw [ht2, ht]; exact hd
  have hne : ((inp.time_stat - (dma_test_run B C t0 inputs).last_time : Int) : ℚ) ≠ 0 := by
    have : (inp.time_stat - (dma_test_run B C t0 inputs).last_time : Int) ≠ 0 := by omega
    exact_mod_cast this
  rw [hrun, ← hbase]
  unfold dma_test_iter dma_statistics
  simp only [hd2, if_true]
  simp only [List.length_append, List.length_singleton, hr2, hr, hl2, hl, ht2, ht,
    dma_speed, true_and]
  rw [List.getLast?_append_of_ne_nil _ (List.cons_ne_nil _ _)]
  simp only [List.getLast?_singleton, Option.map_some', Option.some.injEq]
  generalize ((inp.time_stat - (dma_test_run B C t0 inputs).last_time : Int) : ℚ) = d
    at hne ⊢
  generalize ((inp.reader_sw_count - (dma_test_run B C t0 inputs).reader_sw_count_last : Int)
    : ℚ) = x
  field_simp
  ring

/-- Witness of C7: 1000 buffers of 8192 bytes over 1000 ms, the first line of a test:
the rate is 0.065536 Gbps, which is 65.536 Mbps. -/
theorem dma_test_throughput_witness :
    report_pass.time_stat - (dma_test_run 8192 256 0 []).last_time > 200
      ∧ ((dma_test_run 8192 256 0 ([] ++ [report_pass])).reports.length
            = (dma_test_run 8192 256 0 []).reports.length + 1
        ∧ ((dma_test_run 8192 256 0 ([] ++ [report_pass])).reports.getLast?).map
              DmaReport.speed
            = some
                (((report_pass.reader_sw_count
                      - (((dma_test_run 8192 256 0 []).reports.getLast?).map
                          DmaReport.tx_buffers).getD 0 : Int) : ℚ)
                    * (((8192 : Nat) : ℚ) * 8)
                  / (((report_pass.time_stat - (dma_test_run 8192 256 0 []).last_time : Int)
                      : ℚ) / 1000)
                  / 1000000000))
      ∧ ((dma_test_run 8192 256 0 [report_pass]).reports.getLast?).map DmaReport.speed
          = some (65536 / 1000000) := by
  have hd : report_pass.time_stat - (dma_test_run 8192 256 0 []).last_time > 200 := by
    decide
  have h := dma_test_throughput 8192 256 0 [] report_pass hd
  refine ⟨hd, h, ?_⟩
  have h2 := h.2
  rw [List.nil_append] at h2
  rw [h2]
  simp only [dma_test_run, List.foldl_nil, dma_test_init, report_pass, List.getLast?_nil,
    Option.map_none', Option.getD_none]
  norm_num

theorem pn_buffer_eq : pn_buffer = (write_pn_loop 8192 2048 0 (fun _ => 0) 0).1 := by
  unfold pn_buffer
  rw [write_pn_data_toNat 8192 (fun _ => 0) 0 2048 2048 rfl]

theorem pn_buffer_seed : (write_pn_loop 8192 2048 0 (fun _ => 0) 0).2 = 0 := by
  rw [write_pn_loop_seed, seed_step_iterate 8192 (by decide) 2048 0 (by decide)]

theorem pn_buffer_check : check_pn_data 8192 pn_buffer 2048 0 = (0, 0) := by
  rw [check_pn_data_toNat 8192 pn_buffer 0 2048 2048 rfl, pn_buffer_eq,
    check_write_loop 8192 2048 0 (fun _ => 0) 0 0, pn_buffer_seed]

theorem pn_buffer_word_zero : (write_pn_loop 8192 2048 0 (fun _ => 0) 0).1 0 = 1 := by
  rw [write_pn_loop_word 8192 2048 0 (fun _ => 0) 0 0 (le_refl 0) (by decide)]
  rfl

theorem pn_buffer_check_cleared : check_pn_data 8192 (poke pn_buffer 0 0) 2048 0 = (1, 0) := by
  have hv : (0 : Nat) ≠ (write_pn_loop 8192 2048 0 (fun _ => 0) 0).1 0 := by
    rw [pn_buffer_word_zero]
    decide
  rw [check_pn_data_toNat 8192 (poke pn_buffer 0 0) 0 2048 2048 rfl, pn_buffer_eq,
    check_corrupt_loop 8192 2048 0 (fun _ => 0) 0 0 0 0 (le_refl 0) (by decide) hv,
    pn_buffer_seed]

theorem words_8192 : i32 ((8192 / 4 : Nat) : Int) = 2048 := by decide

theorem dma_statistics_no_report (B : Nat) (inp : DmaIterInput) (st : DmaTestState)
    (h : ¬ inp.time_stat - st.last_time > 200) : dma_statistics B inp st = st := by
  unfold dma_statistics
  simp only [h, if_false]

theorem drain_two_errors (B C : Nat) (b1 b2 : Buf) (hw : Int) (st : DmaTestState)
    (h : hw > (C : Int)) (e1 e2 s1 s2 : Nat)
    (hc1 : check_pn_data B b1 (i32 ((B / 4 : Nat) : Int)) st.seed_rd = (e1, s1))
    (hc2 : check_pn_data B b2 (i32 ((B / 4 : Nat) : Int)) s1 = (e2, s2)) :
    (drain_read_buffers B C [(b1, hw), (b2, hw)] 0 st).errors
      = u32 (u32 (st.errors + u32 (0 + e1)) + u32 (u32 (0 + e1) + e2)) := by
  simp only [drain_read_buffers, hc1, hc2, h, if_true]

/-- C8, the code at a failing input: in the pass `steady_pass`, made with
`dma.writer_hw_count = 257 > DMA_BUFFER_COUNT = 256`, `check_pn_data` returns 1 for the
first read buffer and 0 for the second, one mismatching word in all, and `errors` goes
from 0 to 2: the mismatch of the first buffer is added again after the second. -/
theorem dma_test_errors_counted_again :
    (check_pn_data 8192 (poke pn_buffer 0 0) 2048 0).1 = 1
      ∧ (check_pn_data 8192 pn_buffer 2048 0).1 = 0
      ∧ (dma_test_init 0).errors = 0
      ∧ (dma_test_iter 8192 256 steady_pass (dma_test_init 0)).errors = 2 := by
  refine ⟨by rw [pn_buffer_check_cleared], by rw [pn_buffer_check], rfl, ?_⟩
  have hc1 : check_pn_data 8192 (poke pn_buffer 0 0) (i32 ((8192 / 4 : Nat) : Int))
      (dma_test_init 0).seed_rd = (1, 0) := by
    rw [words_8192]
    exact pn_buffer_check_cleared
  have hc2 : check_pn_data 8192 pn_buffer (i32 ((8192 / 4 : Nat) : Int)) 0 = (0, 0) := by
    rw [words_8192]
    exact pn_buffer_check
  have hfill : fill_write_buffers 8192 256 steady_pass.write_bufs (dma_test_init 0)
      = dma_test_init 0 := rfl
  have hrd : steady_pass.read_bufs = [(poke pn_buffer 0 0, 257), (pn_buffer, 257)] := rfl
  have hlt := (drain_read_buffers_frame 8192 256 [(poke pn_buffer 0 0, 257), (pn_buffer, 257)]
    0 (dma_test_init 0)).2.2.1
  unfold dma_test_iter
  rw [hfill, hrd, dma_statistics_no_report _ _ _ (by rw [hlt]; decide),
    drain_two_errors 8192 256 _ _ 257 (dma_test_init 0) (by decide) 1 0 0 0 hc1 hc2]
  decide

theorem dma_test_iter_bound (B C : Nat) (hC : C < 2 ^ 32) (inp : DmaIterInput)
    (st : DmaTestState) (h1 : st.n_buffers_written ≤ C)
    (h2 : st.wr_filled.length = st.n_buffers_written)
    (h3 : st.wr_seeds.length = st.n_buffers_written) :
    (dma_test_iter B C inp st).n_buffers_written ≤ C
      ∧ (dma_test_iter B C inp st).wr_filled.length
          = (dma_test_iter B C inp st).n_buffers_written
      ∧ (dma_test_iter B C inp st).wr_seeds.length
          = (dma_test_iter B C inp st).n_buffers_written
      ∧ st.n_buffers_written ≤ (dma_test_iter B C inp st).n_buffers_written := by
  obtain ⟨f1, f2, f3, f4⟩ := fill_write_buffers_bound B C hC inp.write_bufs st h1 h2 h3
  obtain ⟨_, _, _, _, d1, d2, d3, _⟩ := drain_read_buffers_frame B C inp.read_bufs 0
    (fill_write_buffers B C inp.write_bufs st)
  obtain ⟨_, _, s1, s2, s3, _⟩ := dma_statistics_frame B inp
    (drain_read_buffers B C inp.read_bufs 0 (fill_write_buffers B C inp.write_bufs st))
  unfold dma_test_iter
  rw [s1, s2, s3, d1, d2, d3]
  exact ⟨f1, f2, f3, f4⟩

/-- C9: with `DMA_BUFFER_COUNT < 2 ^ 32`, after any number of passes of the test loop and
whatever the library answers, `n_buffers_written ≤ DMA_BUFFER_COUNT`; the counter equals
the number of `write_pn_data` calls made so far, so at most `DMA_BUFFER_COUNT` write
buffers are filled in the whole run; a further pass never decreases the counter; and once
it equals `DMA_BUFFER_COUNT` a further pass takes and fills no write buffer. -/
theorem dma_test_write_bound (B C : Nat) (hC : C < 2 ^ 32) (t0 : Int)
    (inputs : List DmaIterInput) :
    (dma_test_run B C t0 inputs).n_buffers_written ≤ C
      ∧ (dma_test_run B C t0 inputs).wr_filled.length
          = (dma_test_run B C t0 inputs).n_buffers_written
      ∧ (dma_test_run B C t0 inputs).wr_seeds.length
          = (dma_test_run B C t0 inputs).n_buffers_written
      ∧ (dma_test_run B C t0 inputs).wr_filled.length ≤ C
      ∧ (∀ inp : DmaIterInput, (dma_test_run B C t0 inputs).n_buffers_written
          ≤ (dma_test_iter B C inp (dma_test_run B C t0 inputs)).n_buffers_written)
      ∧ ((dma_test_run B C t0 inputs).n_buffers_written = C →
          ∀ inp : DmaIterInput,
            fill_write_buffers B C inp.write_bufs (dma_test_run B C t0 inputs)
                = dma_test_run B C t0 inputs
              ∧ (dma_test_iter B C inp (dma_test_run B C t0 inputs)).wr_filled
                = (dma_test_run B C t0 inputs).wr_filled
              ∧ (dma_test_iter B C inp (dma_test_run B C t0 inputs)).n_buffers_written
                = C) := by
  have hinv : (dma_test_run B C t0 inputs).n_buffers_written ≤ C
      ∧ (dma_test_run B C t0 inputs).wr_filled.length
          = (dma_test_run B C t0 inputs).n_buffers_written
      ∧ (dma_test_run B C t0 inputs).wr_seeds.length
          = (dma_test_run B C t0 inputs).n_buffers_written := by
    refine dma_test_run_invariant
      (fun st => st.n_buffers_written ≤ C ∧ st.wr_filled.length = st.n_buffers_written
        ∧ st.wr_seeds.length = st.n_buffers_written) B C t0 ⟨Nat.zero_le _, rfl, rfl⟩ ?_ inputs
    intro inp st hst
    obtain ⟨q1, q2, q3, _⟩ := dma_test_iter_bound B C hC inp st hst.1 hst.2.1 hst.2.2
    exact ⟨q1, q2, q3⟩
  obtain ⟨i1, i2, i3⟩ := hinv
  refine ⟨i1, i2, i3, by omega, ?_, ?_⟩
  · intro inp
    exact (dma_test_iter_bound B C hC inp _ i1 i2 i3).2.2.2
  · intro hcap inp
    have hfill := fill_write_buffers_at_cap B C inp.write_bufs _ hcap
    obtain ⟨_, _, _, _, d1, _, d3, _⟩ := drain_read_buffers_frame B C inp.read_bufs 0
      (fill_write_buffers B C inp.write_bufs (dma_test_run B C t0 inputs))
    obtain ⟨_, _, s1, _, s3, _⟩ := dma_statistics_frame B inp
      (drain_read_buffers B C inp.read_bufs 0
        (fill_write_buffers B C inp.write_bufs (dma_test_run B C t0 inputs)))
    refine ⟨hfill, ?_, ?_⟩
    · unfold dma_test_iter
      rw [s3, d3, hfill]
    · unfold dma_test_iter
      rw [s1, d1, hfill, hcap]

/-- Witness of C9: `DMA_BUFFER_COUNT = 2`, one pass in which the library offers three
write buffers. -/
theorem dma_test_write_bound_witness :
    2 < 2 ^ 32
      ∧ ((dma_test_run 8192 2 0 [three_offered]).n_buffers_written ≤ 2
        ∧ (dma_test_run 8192 2 0 [three_offered]).wr_filled.length
            = (dma_test_run 8192 2 0 [three_offered]).n_buffers_written
        ∧ (dma_test_run 8192 2 0 [three_offered]).wr_seeds.length
            = (dma_test_run 8192 2 0 [three_offered]).n_buffers_written
        ∧ (dma_test_run 8192 2 0 [three_offered]).wr_filled.length ≤ 2
        ∧ (∀ inp : DmaIterInput, (dma_test_run 8192 2 0 [three_offered]).n_buffers_written
            ≤ (dma_test_iter 8192 2 inp
                (dma_test_run 8192 2 0 [three_offered])).n_buffers_written)
        ∧ ((dma_test_run 8192 2 0 [three_offered]).n_buffers_written = 2 →
            ∀ inp : DmaIterInput,
              fill_write_buffers 8192 2 inp.write_bufs (dma_test_run 8192 2 0 [three_offered])
                  = dma_test_run 8192 2 0 [three_offered]
                ∧ (dma_test_iter 8192 2 inp (dma_test_run 8192 2 0 [three_offered])).wr_filled
                  = (dma_test_run 8192 2 0 [three_offered]).wr_filled
                ∧ (dma_test_iter 8192 2 inp
                    (dma_test_run 8192 2 0 [three_offered])).n_buffers_written = 2)) :=
  ⟨by decide, dma_test_write_bound 8192 2 (by decide) 0 [three_offered]⟩

/-- C10: with `W = DMA_BUFFER_SIZE / 4` words in a buffer (a count that fits `int`),
`write_pn_data` and `check_pn_data` called with count `W` from a seed `s < W` leave the
seed `s`; so after any number of passes of the test loop `seed_wr = 0` and `seed_rd = 0`,
every `write_pn_data` and `check_pn_data` call made started from seed 0 and left seed 0,
and every buffer filled holds `seed_to_data 0, ..., seed_to_data (W - 1)`. -/
theorem dma_test_seed_period (B C : Nat) (hB : B / 4 < 2 ^ 31) :
    (∀ (buf : Buf) (s : Nat), s < B / 4 →
        (write_pn_data B buf ((B / 4 : Nat) : Int) s).2 = s
          ∧ (check_pn_data B buf ((B / 4 : Nat) : Int) s).2 = s)
      ∧ ∀ (t0 : Int) (inputs : List DmaIterInput),
          (dma_test_run B C t0 inputs).seed_wr = 0
            ∧ (dma_test_run B C t0 inputs).seed_rd = 0
            ∧ (∀ p ∈ (dma_test_run B C t0 inputs).wr_seeds, p = (0, 0))
            ∧ (∀ p ∈ (dma_test_run B C t0 inputs).rd_seeds, p = (0, 0))
            ∧ ∀ b ∈ (dma_test_run B C t0 inputs).wr_filled,
                ∀ idx, idx < B / 4 → b idx = seed_to_data idx := by
  constructor
  · intro buf s hs
    constructor
    · rw [write_pn_data_toNat B buf s _ _ (Int.toNat_ofNat _), write_pn_loop_seed]
      exact seed_step_period B hB s hs
    · rw [check_pn_data_toNat B buf s _ _ (Int.toNat_ofNat _), check_pn_loop_seed]
      exact seed_step_period B hB s hs
  · intro t0 inputs
    refine dma_test_run_invariant
      (fun st => st.seed_wr = 0 ∧ st.seed_rd = 0 ∧ (∀ p ∈ st.wr_seeds, p = (0, 0))
        ∧ (∀ p ∈ st.rd_seeds, p = (0, 0))
        ∧ ∀ b ∈ st.wr_filled, ∀ idx, idx < B / 4 → b idx = seed_to_data idx) B C t0
      ⟨rfl, rfl, by simp [dma_test_init], by simp [dma_test_init],
        by simp [dma_test_init]⟩ ?_ inputs
    intro inp st ⟨h1, h2, h3, h4, h5⟩
    obtain ⟨f1, f2, f3⟩ := fill_write_buffers_seeds B C hB inp.write_bufs st h1 h3 h5
    obtain ⟨_, _, _, _, g1, g2, _⟩ := fill_write_buffers_frame B C inp.write_bufs st
    obtain ⟨d1, d2⟩ := drain_read_buffers_seeds B C hB inp.read_bufs 0
      (fill_write_buffers B C inp.write_bufs st) (g1.trans h2) (by rw [g2]; exact h4)
    obtain ⟨_, _, _, e1, _, e2, e3, _⟩ := drain_read_buffers_frame B C inp.read_bufs 0
      (fill_write_buffers B C inp.write_bufs st)
    obtain ⟨s1, s2, _, s3, s4, s5⟩ := dma_statistics_frame B inp
      (drain_read_buffers B C inp.read_bufs 0 (fill_write_buffers B C inp.write_bufs st))
    unfold dma_test_iter
    rw [s1, s2, s3, s4, s5, e1, e2, e3]
    exact ⟨f1, d1, f2, d2, f3⟩

/-- Witness of C10: `DMA_BUFFER_SIZE = 8192`, `DMA_BUFFER_COUNT = 256`. -/
theorem dma_test_seed_period_witness :
    8192 / 4 < 2 ^ 31
      ∧ ((∀ (buf : Buf) (s : Nat), s < 8192 / 4 →
            (write_pn_data 8192 buf ((8192 / 4 : Nat) : Int) s).2 = s
              ∧ (check_pn_data 8192 buf ((8192 / 4 : Nat) : Int) s).2 = s)
        ∧ ∀ (t0 : Int) (inputs : List DmaIterInput),
            (dma_test_run 8192 256 t0 inputs).seed_wr = 0
              ∧ (dma_test_run 8192 256 t0 inputs).seed_rd = 0
              ∧ (∀ p ∈ (dma_test_run 8192 256 t0 inputs).wr_seeds, p = (0, 0))
              ∧ (∀ p ∈ (dma_test_run 8192 256 t0 inputs).rd_seeds, p = (0, 0))
              ∧ ∀ b ∈ (dma_test_run 8192 256 t0 inputs).wr_filled,
                  ∀ idx, idx < 8192 / 4 → b idx = seed_to_data idx) :=
  ⟨by decide, dma_test_seed_period 8192 256 (by decide)⟩

/-! ## Flash programming: lemmas -/

theorem size_t_of_nat (n : Nat) (h : n < 2 ^ 31) : size_t_of_int (n : Int) = n := by
  unfold size_t_of_int
  omega

theorem div_mul_bounds (n k : Nat) (hk : 0 < k) :
    n ≤ (n + k - 1) / k * k ∧ (n + k - 1) / k * k < n + k := by
  have h1 := Nat.div_add_mod (n + k - 1) k
  have h2 := Nat.mod_lt (n + k - 1) hk
  have h3 : (n + k - 1) / k * k = k * ((n + k - 1) / k) := Nat.mul_comm _ _
  omega

theorem padded_size_eq (n k : Nat) (hk : 0 < k) (hk2 : k < 2 ^ 31)
    (hr : n + k - 1 < 2 ^ 31) :
    padded_size (n : Int) (i32 (k : Int)) = (n + k - 1) / k * k := by
  have hb := div_mul_bounds n k hk
  rw [i32_of_small (Int.natCast_nonneg _) (by exact_mod_cast hk2)]
  unfold padded_size u32_of_int
  have hsum : ((n : Int) + (k : Int) - 1) = ((n + k - 1 : Nat) : Int) := by omega
  rw [hsum, ← Int.ofNat_tdiv, ← Int.natCast_mul]
  generalize (n + k - 1) / k * k = m at hb ⊢
  omega

theorem memcpy_padding (buf1 : List Nat) (size : Nat) :
    memcpy (List.replicate size 0) buf1 buf1.length
      = buf1 ++ List.replicate (size - buf1.length) 0 := by
  unfold memcpy
  rw [List.take_length, List.drop_replicate]

theorem div_mul_eq_ceil (n k : Nat) (hk : 0 < k) :
    (n + k - 1) / k = ⌈(n : ℚ) / (k : ℚ)⌉₊ := by
  have hb := div_mul_bounds n k hk
  have hkq : (0 : ℚ) < (k : ℚ) := by exact_mod_cast hk
  apply le_antisymm
  · rcases Nat.eq_zero_or_pos ((n + k - 1) / k) with h0 | hpos
    · rw [h0]; exact Nat.zero_le _
    · apply Nat.le_of_pred_lt
      rw [Nat.lt_ceil, lt_div_iff₀ hkq]
      have h : ((n + k - 1) / k - 1) * k < n := by
        have hqk : k ≤ (n + k - 1) / k * k := Nat.le_mul_of_pos_left k hpos
        have : ((n + k - 1) / k - 1) * k = (n + k - 1) / k * k - k := by
          rw [Nat.sub_mul, Nat.one_mul]
        omega
      exact_mod_cast h
  · rw [Nat.ceil_le, div_le_iff₀ hkq]
    exact_mod_cast hb.1

/-! ## Flash programming: claims -/

/-- C4: when the device opens and `calloc` returns a buffer, for a payload of `n` bytes
and an erase block size `k` with `0 < k < 2 ^ 31` and `n + k - 1` within the `int` range,
`flash_program` makes exactly one `litepcie_flash_write` call; its buffer is the payload
followed by zero bytes up to the length `(n + k - 1) / k * k`, which is
`ceil(n / k) * k`, the least multiple of `k` that is at least `n`. -/
theorem flash_program_padding (env : FlashProgramEnv) (base : Nat) (buf1 : List Nat)
    (hfd : 0 ≤ env.fd) (halloc : env.calloc_ok = true)
    (hk : 0 < env.erase_block_size) (hk2 : env.erase_block_size < 2 ^ 31)
    (hr : buf1.length + env.erase_block_size - 1 < 2 ^ 31) :
    (flash_program env base buf1 (buf1.length : Int)).calls
        = [{ buf := buf1 ++ List.replicate
                ((buf1.length + env.erase_block_size - 1) / env.erase_block_size
                    * env.erase_block_size - buf1.length) 0
             base := base
             size := (buf1.length + env.erase_block_size - 1) / env.erase_block_size
                      * env.erase_block_size }]
      ∧ (buf1 ++ List.replicate
            ((buf1.length + env.erase_block_size - 1) / env.erase_block_size
                * env.erase_block_size - buf1.length) 0).length
          = (buf1.length + env.erase_block_size - 1) / env.erase_block_size
              * env.erase_block_size
      ∧ (buf1.length + env.erase_block_size - 1) / env.erase_block_size
            * env.erase_block_size
          = ⌈(buf1.length : ℚ) / (env.erase_block_size : ℚ)⌉₊ * env.erase_block_size
      ∧ env.erase_block_size ∣ (buf1.length + env.erase_block_size - 1)
            / env.erase_block_size * env.erase_block_size
      ∧ buf1.length ≤ (buf1.length + env.erase_block_size - 1) / env.erase_block_size
            * env.erase_block_size
      ∧ ∀ m : Nat, env.erase_block_size ∣ m → buf1.length ≤ m →
          (buf1.length + env.erase_block_size - 1) / env.erase_block_size
            * env.erase_block_size ≤ m := by
  have hb := div_mul_bounds buf1.length env.erase_block_size hk
  refine ⟨?_, ?_, ?_, Nat.dvd_mul_left _ _, hb.1, ?_⟩
  · unfold flash_program
    have hfd2 : ¬ env.fd < 0 := not_lt.mpr hfd
    simp only [hfd2, if_false, halloc, Bool.not_true, Bool.false_eq_true,
      padded_size_eq buf1.length env.erase_block_size hk hk2 hr,
      size_t_of_nat buf1.length (by omega), memcpy_padding]
  · rw [List.length_append, List.length_replicate]
    omega
  · rw [div_mul_eq_ceil buf1.length env.erase_block_size hk]
  · intro m hdvd hle
    obtain ⟨c, hc⟩ := hdvd
    subst hc
    rw [Nat.mul_comm env.erase_block_size c]
    apply Nat.mul_le_mul_right
    rw [Nat.div_le_iff_le_mul_add_pred hk]
    omega

/-- Witness of C4: a payload of 100 bytes and an erase block size of 4096: the buffer
written has 4096 bytes, the payload followed by 3996 zero bytes (indices 100 to 4095). -/
theorem flash_program_padding_witness :
    (0 ≤ sector_4096_env.fd ∧ sector_4096_env.calloc_ok = true
        ∧ 0 < sector_4096_env.erase_block_size ∧ sector_4096_env.erase_block_size < 2 ^ 31
        ∧ payload_100.length + sector_4096_env.erase_block_size - 1 < 2 ^ 31)
      ∧ ((flash_program sector_4096_env 0 payload_100 (payload_100.length : Int)).calls
            = [{ buf := payload_100 ++ List.replicate
                    ((payload_100.length + sector_4096_env.erase_block_size - 1)
                        / sector_4096_env.erase_block_size
                        * sector_4096_env.erase_block_size - payload_100.length) 0
                 base := 0
                 size := (payload_100.length + sector_4096_env.erase_block_size - 1)
                          / sector_4096_env.erase_block_size
                          * sector_4096_env.erase_block_size }]
          ∧ (payload_100 ++ List.replicate
                ((payload_100.length + sector_4096_env.erase_block_size - 1)
                    / sector_4096_env.erase_block_size
                    * sector_4096_env.erase_block_size - payload_100.length) 0).length
              = (payload_100.length + sector_4096_env.erase_block_size - 1)
                  / sector_4096_env.erase_block_size * sector_4096_env.erase_block_size
          ∧ (payload_100.length + sector_4096_env.erase_block_size - 1)
                / sector_4096_env.erase_block_size * sector_4096_env.erase_block_size
              = ⌈(payload_100.length : ℚ) / (sector_4096_env.erase_block_size : ℚ)⌉₊
                  * sector_4096_env.erase_block_size
          ∧ sector_4096_env.erase_block_size ∣
              (payload_100.length + sector_4096_env.erase_block_size - 1)
                / sector_4096_env.erase_block_size * sector_4096_env.erase_block_size
          ∧ payload_100.length
              ≤ (payload_100.length + sector_4096_env.erase_block_size - 1)
                  / sector_4096_env.erase_block_size * sector_4096_env.erase_block_size
          ∧ ∀ m : Nat, sector_4096_env.erase_block_size ∣ m → payload_100.length ≤ m →
              (payload_100.length + sector_4096_env.erase_block_size - 1)
                / sector_4096_env.erase_block_size * sector_4096_env.erase_block_size ≤ m)
      ∧ (flash_program sector_4096_env 0 payload_100 (payload_100.length : Int)).calls
          = [{ buf := payload_100 ++ List.replicate 3996 0, base := 0, size := 4096 }] := by
  have h := flash_program_padding sector_4096_env 0 payload_100 (by decide) rfl (by decide)
    (by decide) (by decide)
  refine ⟨⟨by decide, rfl, by decide, by decide, by decide⟩, h, ?_⟩
  have h1 := h.1
  have e1 : (payload_100.length + sector_4096_env.erase_block_size - 1)
      / sector_4096_env.erase_block_size * sector_4096_env.erase_block_size = 4096 := by
    decide
  have e2 : 4096 - payload_100.length = 3996 := by decide
  rw [e1, e2] at h1
  exact h1

/-! ## Flash read-back: lemmas -/

theorem flash_read_loop_reads {σ : Type} (read : σ → Nat → Nat × σ)
    (base sector_size size : Nat) (hss : 0 < sector_size) (hsize : size < 2 ^ 32)
    (d : Nat) :
    ∀ (fuel i : Nat) (dev : σ) (log : FlashReadLog), i + d = size → d < fuel →
      ∃ log2, flash_read_loop read base sector_size size fuel i dev log = some log2
        ∧ log2.reads = log.reads ++
            ((List.range' i d).map (fun j => u32 (base + j))).zip
              (flash_bytes read dev ((List.range' i d).map (fun j => u32 (base + j))))
        ∧ log2.file = log.file ++
            flash_bytes read dev ((List.range' i d).map (fun j => u32 (base + j)))
        ∧ log2.exit_status = log.exit_status := by
  induction d with
  | zero =>
    intro fuel i dev log hi hfuel
    obtain ⟨f, rfl⟩ : ∃ f, fuel = f + 1 := ⟨fuel - 1, by omega⟩
    refine ⟨log, ?_, ?_, ?_, rfl⟩
    · have hlt : ¬ i < size := by omega
      simp only [flash_read_loop, hlt, if_false]
    · simp [flash_bytes]
    · simp [flash_bytes]
  | succ d ih =>
    intro fuel i dev log hi hfuel
    obtain ⟨f, rfl⟩ : ∃ f, fuel = f + 1 := ⟨fuel - 1, by omega⟩
    have hlt : i < size := by omega
    have hne : ¬ sector_size = 0 := by omega
    have hu : u32 (i + 1) = i + 1 := u32_of_lt (by omega)
    obtain ⟨log2, h1, h2, h3, h4⟩ := ih f (i + 1) (read dev (u32 (base + i))).2
      { log with
        reads := log.reads ++ [(u32 (base + i), (read dev (u32 (base + i))).1 % 256)]
        file := log.file ++ [(read dev (u32 (base + i))).1 % 256]
        progress := if i % sector_size = 0 then log.progress ++ [u32 (base + i)]
                    else log.progress }
      (by omega) (by omega)
    refine ⟨log2, ?_, ?_, ?_, ?_⟩
    · simp only [flash_read_loop, hlt, if_true, hne, if_false, hu]
      exact h1
    · rw [h2]
      simp only [List.range'_succ, List.map_cons, flash_bytes, List.zip_cons_cons,
        List.append_assoc, List.singleton_append]
    · rw [h3]
      simp only [List.range'_succ, List.map_cons, flash_bytes, List.append_assoc,
        List.singleton_append]
    · rw [h4]

theorem flash_bytes_length {σ : Type} (read : σ → Nat → Nat × σ) (dev : σ)
    (addrs : List Nat) : (flash_bytes read dev addrs).length = addrs.length := by
  induction addrs generalizing dev with
  | nil => rfl
  | cons a rest ih => simp [flash_bytes, ih]

/-! ## Flash read-back: claims -/

/-- C5, as stated, fails: with `offset = 0xffffffff` and `size = 2` the second read is at
address 0, since `base + i` is computed in `uint32_t`; the addresses read are not
`offset, offset + 1` in ascending order. -/
theorem flash_read_address_wraps :
    (flash_read address_flash 2 4294967295).map (fun log => log.reads.map Prod.fst)
        = some [4294967295, 0]
      ∧ ¬ (flash_read address_flash 2 4294967295).map (fun log => log.reads.map Prod.fst)
          = some ((List.range 2).map (fun i => 4294967295 + i)) := by
  decide

/-- C5, amended: when the file and the device open and the erase block size is not 0,
for every `size < 2 ^ 32` and every offset, `flash_read` returns normally after exactly
`size` single-byte reads, at the addresses `(offset + i) mod 2 ^ 32` for
`i = 0, ..., size - 1` in this order; the bytes written to the file are the bytes those
reads returned, in the same order, so the file has `size` bytes; and when
`offset + size ≤ 2 ^ 32` the addresses are `offset, ..., offset + size - 1`, ascending. -/
theorem flash_read_order {σ : Type} (env : FlashReadEnv σ) (size offset : Nat)
    (hfopen : env.fopen_ok = true) (hfd : 0 ≤ env.fd) (hss : 0 < env.erase_block_size)
    (hsize : size < 2 ^ 32) :
    ∃ log, flash_read env size offset = some log
      ∧ log.exit_status = none
      ∧ log.reads.length = size
      ∧ log.reads.map Prod.fst = (List.range size).map (fun i => (offset + i) % 2 ^ 32)
      ∧ log.reads.map Prod.snd
          = flash_bytes env.read env.state
              ((List.range size).map (fun i => (offset + i) % 2 ^ 32))
      ∧ log.file = log.reads.map Prod.snd
      ∧ log.file.length = size
      ∧ (offset + size ≤ 2 ^ 32 →
          log.reads.map Prod.fst = (List.range size).map (fun i => offset + i)) := by
  obtain ⟨log, h1, h2, h3, h4⟩ := flash_read_loop_reads env.read offset env.erase_block_size
    size hss hsize size (size + 1) 0 env.state
    { reads := [], file := [], progress := [], exit_status := none }
    (Nat.zero_add _) (Nat.lt_succ_self _)
  have hfd2 : ¬ env.fd < 0 := not_lt.mpr hfd
  have haddr : (List.range' 0 size).map (fun j => u32 (offset + j))
      = (List.range size).map (fun i => (offset + i) % 2 ^ 32) := by
    rw [List.range_eq_range']
    rfl
  rw [haddr] at h2 h3
  simp only [List.nil_append] at h2 h3
  have hlen := flash_bytes_length env.read env.state
    ((List.range size).map (fun i => (offset + i) % 2 ^ 32))
  have hfst : log.reads.map Prod.fst
      = (List.range size).map (fun i => (offset + i) % 2 ^ 32) := by
    rw [h2]
    exact List.map_fst_zip _ _ (le_of_eq hlen.symm)
  have hsnd : log.reads.map Prod.snd = flash_bytes env.read env.state
      ((List.range size).map (fun i => (offset + i) % 2 ^ 32)) := by
    rw [h2]
    exact List.map_snd_zip _ _ (le_of_eq hlen)
  refine ⟨log, ?_, h4, ?_, hfst, hsnd, ?_, ?_, ?_⟩
  · unfold flash_read
    simp only [hfopen, Bool.not_true, Bool.false_eq_true, if_false, hfd2]
    exact h1
  · have := congrArg List.length hfst
    simpa using this
  · rw [h3, hsnd]
  · rw [h3, hlen]
    simp
  · intro hno
    rw [hfst]
    apply List.map_congr_left
    intro i hi
    rw [List.mem_range] at hi
    exact Nat.mod_eq_of_lt (by omega)

/-- Witness of C5, amended: `size = 8192` and `offset = 0x1000`: 8192 reads, at the
addresses `0x1000, ..., 0x1fff` in ascending order. -/
theorem flash_read_order_witness :
    (address_flash.fopen_ok = true ∧ 0 ≤ address_flash.fd
        ∧ 0 < address_flash.erase_block_size ∧ 8192 < 2 ^ 32)
      ∧ (
        ∃ log, flash_read address_flash 8192 4096 = some log
          ∧ log.exit_status = none
          ∧ log.reads.length = 8192
          ∧ log.reads.map Prod.fst = (List.range 8192).map (fun i => (4096 + i) % 2 ^ 32)
          ∧ log.reads.map Prod.snd
              = flash_bytes address_flash.read address_flash.state
                  ((List.range 8192).map (fun i => (4096 + i) % 2 ^ 32))
          ∧ log.file = log.reads.map Prod.snd
          ∧ log.file.length = 8192
          ∧ (4096 + 8192 ≤ 2 ^ 32 →
              log.reads.map Prod.fst = (List.range 8192).map (fun i => 4096 + i)))
      ∧ ∃ log, flash_read address_flash 8192 4096 = some log
          ∧ log.reads.length = 8192
          ∧ log.reads.map Prod.fst = (List.range 8192).map (fun i => 4096 + i) := by
  have h := flash_read_order address_flash 8192 4096 rfl (by decide) (by decide) (by decide)
  refine ⟨⟨rfl, by decide, by decide, by decide⟩, h, ?_⟩
  obtain ⟨log, h1, _, h3, _, _, _, _, h8⟩ := h
  exact ⟨log, h1, h3, h8 (by decide)⟩

end LitePCIe
